import Mathlib

/-!
Verification of the MeSec reversible video anonymization tool.

Shallow embedding of the Python sources under `scripts/`:
  * `video_pipeline.py`  — `encrypt_roi`, the obfuscation kernels,
    the worker's per-frame region logic and the consumer loop;
  * `restore_video.py`   — `decrypt_roi`, `load_data_pack` and `main`;
  * `mp4_packager.py`    — `_build_uuid_box`, `embed_pack_into_mp4`
    and `extract_pack_from_mp4`;
  * `anonymize_video.py` — the `run_anonymization -> run_pipeline` call.

Bytes are modelled as `Nat` (values below 256 where produced by us),
byte strings as `List Nat`.  The AES-GCM primitive of the external
`cryptography` library is modelled as a CTR-style keystream cipher with
a 16-byte tag recomputed on decryption: the model preserves the
interface laws the sources rely on (ciphertext length equals plaintext
length, decryption inverts encryption under the same key and nonce,
finalization fails when the stored tag differs from the recomputed
one).  `os.urandom(12)` is an external effect; the nonce is passed as
an explicit argument constrained to 12 bytes.
-/

/-! ## AES-GCM model (external `cryptography` library) -/

/-- Model of one keystream byte of AES-CTR inside GCM.  The real
function is AES; any concrete byte-valued function of (key, nonce,
position) preserves the laws the sources use. -/
def gcmKeyByte (key nonce : List Nat) (i : Nat) : Nat :=
  ((key.foldl (fun a b => a * 31 + b) 7 + 1)
    * (nonce.foldl (fun a b => a * 17 + b) 3 + 1) * (i + 11) + i) % 256

/-- Keystream of `n` bytes for the given key and nonce. -/
def gcmKeystream (key nonce : List Nat) (n : Nat) : List Nat :=
  (List.range n).map (gcmKeyByte key nonce)

/-- Model of GCM encryption: plaintext XOR keystream (CTR mode). -/
def gcmEncrypt (key nonce pt : List Nat) : List Nat :=
  List.zipWith (fun a b => a ^^^ b) pt (gcmKeystream key nonce pt.length)

/-- Model of GCM decryption: ciphertext XOR keystream (CTR mode). -/
def gcmDecrypt (key nonce ct : List Nat) : List Nat :=
  List.zipWith (fun a b => a ^^^ b) ct (gcmKeystream key nonce ct.length)

/-- Model of the 16-byte GCM authentication tag over (key, nonce,
ciphertext); the real function is GHASH-based, any concrete 16-byte
function preserves the laws the sources use. -/
def gcmTag (key nonce ct : List Nat) : List Nat :=
  (List.range 16).map (fun i =>
    (key.foldl (fun a b => a * 31 + b) 5 * 31
      + nonce.foldl (fun a b => a * 17 + b) 13 * 17
      + ct.foldl (fun a b => a * 131 + b) 29 * 7 + ct.length + i) % 256)

/-- Errors raised by the ROI crypto functions of the sources
(`ValueError` for key length / truncation / shape, `InvalidTag` for
authentication). -/
inductive CryptoErr
  | invalidKeyLength
  | truncated
  | authFailed
  | shapeMismatch
deriving DecidableEq

/-- Embedding of `encrypt_roi` (`scripts/video_pipeline.py`, lines
53-62).  `roi` is the ROI's row-major byte string, exactly
`np.ascontiguousarray(roi).tobytes()`.  The fresh `os.urandom(12)`
nonce is an explicit argument.  Returns `nonce ++ ciphertext ++ tag`
after the explicit key-length check of line 55. -/
def encrypt_roi (roi key nonce : List Nat) : Except CryptoErr (List Nat) :=
  if key.length = 16 ∨ key.length = 24 ∨ key.length = 32 then
    Except.ok (nonce ++ gcmEncrypt key nonce roi
      ++ gcmTag key nonce (gcmEncrypt key nonce roi))
  else Except.error CryptoErr.invalidKeyLength

/-- Embedding of `decrypt_roi` (`scripts/restore_video.py`, lines
71-90): length check (`< 12 + 16`), split into
`payload[:12] / payload[12:-16] / payload[-16:]`, GCM finalization
(fails with `InvalidTag` when the stored tag differs from the
recomputed one), then the `height * width * 3` shape check.  Returns
the plaintext bytes; the final `reshape((height, width, 3))` is the
identity on the underlying bytes. -/
def decrypt_roi (payload key : List Nat) (width height : Nat) :
    Except CryptoErr (List Nat) :=
  if payload.length < 12 + 16 then Except.error CryptoErr.truncated
  else if gcmTag key (payload.take 12)
        ((payload.drop 12).take (payload.length - 28))
      = payload.drop (payload.length - 16) then
    if (gcmDecrypt key (payload.take 12)
          ((payload.drop 12).take (payload.length - 28))).length
        = height * width * 3 then
      Except.ok (gcmDecrypt key (payload.take 12)
        ((payload.drop 12).take (payload.length - 28)))
    else Except.error CryptoErr.shapeMismatch
  else Except.error CryptoErr.authFailed

theorem gcmKeystream_length (key nonce : List Nat) (n : Nat) :
    (gcmKeystream key nonce n).length = n := by
  simp [gcmKeystream]

theorem gcmEncrypt_length (key nonce pt : List Nat) :
    (gcmEncrypt key nonce pt).length = pt.length := by
  simp [gcmEncrypt, gcmKeystream_length]

theorem zipWith_xor_cancel (xs ks : List Nat) (h : xs.length = ks.length) :
    List.zipWith (fun a b => a ^^^ b)
      (List.zipWith (fun a b => a ^^^ b) xs ks) ks = xs := by
  induction xs generalizing ks with
  | nil => simp
  | cons x xs ih =>
    cases ks with
    | nil => simp at h
    | cons k ks =>
      simp only [List.zipWith, Nat.xor_cancel_right, List.cons.injEq]
      exact ⟨trivial, ih ks (by simpa using h)⟩

theorem gcmDecrypt_gcmEncrypt (key nonce pt : List Nat) :
    gcmDecrypt key nonce (gcmEncrypt key nonce pt) = pt := by
  unfold gcmDecrypt
  rw [gcmEncrypt_length]
  exact zipWith_xor_cancel pt _ (gcmKeystream_length key nonce pt.length).symm

theorem gcmTag_length (key nonce ct : List Nat) : (gcmTag key nonce ct).length = 16 := by
  simp [gcmTag]

theorem encrypt_roi_ok_eq (roi key nonce b : List Nat)
    (hb : encrypt_roi roi key nonce = Except.ok b) :
    b = nonce ++ gcmEncrypt key nonce roi
      ++ gcmTag key nonce (gcmEncrypt key nonce roi) := by
  unfold encrypt_roi at hb
  split at hb
  · exact (Except.ok.inj hb).symm
  · cases hb

theorem blobSplit (nonce ct tg : List Nat) (hn : nonce.length = 12)
    (ht : tg.length = 16) :
    (nonce ++ ct ++ tg).take 12 = nonce ∧
    (nonce ++ ct ++ tg).drop ((nonce ++ ct ++ tg).length - 16) = tg ∧
    ((nonce ++ ct ++ tg).drop 12).take ((nonce ++ ct ++ tg).length - 28) = ct ∧
    (nonce ++ ct ++ tg).length = ct.length + 28 := by
  have hlen : (nonce ++ ct ++ tg).length = ct.length + 28 := by
    simp [List.length_append, hn, ht]; omega
  refine ⟨?_, ?_, ?_, hlen⟩
  · rw [List.append_assoc, ← hn]
    exact List.take_left _ _
  · have h2 : (nonce ++ ct ++ tg).length - 16 = (nonce ++ ct).length := by
      simp [List.length_append, hn, ht]
      omega
    rw [h2]
    exact List.drop_left _ _
  · rw [List.append_assoc, ← hn, List.drop_left]
    have h4 : (nonce ++ (ct ++ tg)).length - 28 = ct.length := by
      simp [List.length_append, hn, ht]
      omega
    rw [h4]
    exact List.take_left _ _

/-- C1: for every ROI byte buffer of shape `(h, w, 3)` (modelled as its
`h * w * 3`-byte row-major string), every AES key of length 16, 24 or
32 bytes and every 12-byte nonce, `decrypt_roi (encrypt_roi roi key)
key w h` succeeds and returns exactly the original bytes; in particular
the decrypted plaintext has exactly `h * w * 3` bytes. -/
theorem roi_encrypt_decrypt_roundtrip (roi key nonce : List Nat) (w h : Nat)
    (hw : 1 ≤ w) (hh : 1 ≤ h)
    (hkey : key.length = 16 ∨ key.length = 24 ∨ key.length = 32)
    (hnonce : nonce.length = 12)
    (hroi : roi.length = h * w * 3)
    (blob : List Nat) (hblob : encrypt_roi roi key nonce = Except.ok blob) :
    decrypt_roi blob key w h = Except.ok roi := by
  have hbeq := encrypt_roi_ok_eq roi key nonce blob hblob
  subst hbeq
  obtain ⟨e1, e2, e3, hlen⟩ :=
    blobSplit nonce (gcmEncrypt key nonce roi)
      (gcmTag key nonce (gcmEncrypt key nonce roi)) hnonce
      (gcmTag_length key nonce (gcmEncrypt key nonce roi))
  rw [gcmEncrypt_length] at hlen
  unfold decrypt_roi
  rw [e1, e2, e3, if_neg (by omega), if_pos rfl, gcmDecrypt_gcmEncrypt,
    if_pos (by omega)]

/-- Concrete blob produced by `encrypt_roi` on a 1x1 ROI with the
all-zero 16-byte key and a fixed nonce, used by the C1 witness. -/
def c1blob : List Nat :=
  (encrypt_roi [1, 2, 3] (List.replicate 16 0) (List.replicate 12 7)).toOption.getD []

theorem roi_encrypt_decrypt_roundtrip_witness :
    encrypt_roi [1, 2, 3] (List.replicate 16 0) (List.replicate 12 7)
      = Except.ok c1blob ∧
    decrypt_roi c1blob (List.replicate 16 0) 1 1 = Except.ok [1, 2, 3] := by
  have hb : encrypt_roi [1, 2, 3] (List.replicate 16 0) (List.replicate 12 7)
      = Except.ok c1blob := rfl
  exact ⟨hb, roi_encrypt_decrypt_roundtrip [1, 2, 3] (List.replicate 16 0)
    (List.replicate 12 7) 1 1 (by decide) (by decide) (by decide) (by decide)
    (by decide) c1blob hb⟩

/-- C7: `encrypt_roi` fails exactly when the key length is not 16, 24
or 32 bytes, and otherwise returns `nonce ++ ciphertext ++ tag` of
total length `|plaintext| + 28` with a 12-byte nonce and a 16-byte
tag; `decrypt_roi` fails on every payload shorter than 28 bytes, fails
with an authentication error when the stored GCM tag differs from the
recomputed one, and fails with a shape error when the decrypted
plaintext length differs from `height * width * 3`. -/
theorem roi_crypto_error_handling :
    (∀ roi key nonce : List Nat,
      ((∃ b, encrypt_roi roi key nonce = Except.ok b) ↔
        (key.length = 16 ∨ key.length = 24 ∨ key.length = 32)) ∧
      (¬(key.length = 16 ∨ key.length = 24 ∨ key.length = 32) →
        encrypt_roi roi key nonce = Except.error CryptoErr.invalidKeyLength) ∧
      (nonce.length = 12 → ∀ b, encrypt_roi roi key nonce = Except.ok b →
        b.length = roi.length + 28 ∧ b.take 12 = nonce ∧
        (b.drop (b.length - 16)).length = 16)) ∧
    (∀ payload key : List Nat, ∀ w h : Nat, payload.length < 28 →
      decrypt_roi payload key w h = Except.error CryptoErr.truncated) ∧
    (∀ payload key : List Nat, ∀ w h : Nat, 28 ≤ payload.length →
      gcmTag key (payload.take 12) ((payload.drop 12).take (payload.length - 28))
          ≠ payload.drop (payload.length - 16) →
      decrypt_roi payload key w h = Except.error CryptoErr.authFailed) ∧
    (∀ payload key : List Nat, ∀ w h : Nat, 28 ≤ payload.length →
      gcmTag key (payload.take 12) ((payload.drop 12).take (payload.length - 28))
          = payload.drop (payload.length - 16) →
      (gcmDecrypt key (payload.take 12)
          ((payload.drop 12).take (payload.length - 28))).length ≠ h * w * 3 →
      decrypt_roi payload key w h = Except.error CryptoErr.shapeMismatch) := by
  refine ⟨fun roi key nonce => ⟨⟨?_, ?_⟩, ?_, ?_⟩, ?_, ?_, ?_⟩
  · rintro ⟨b, hb⟩
    by_contra hk
    rw [encrypt_roi, if_neg hk] at hb
    cases hb
  · intro hk
    exact ⟨_, by rw [encrypt_roi, if_pos hk]⟩
  · intro hk
    rw [encrypt_roi, if_neg hk]
  · intro hn b hb
    have hbeq := encrypt_roi_ok_eq roi key nonce b hb
    subst hbeq
    obtain ⟨e1, e2, _, hlen⟩ :=
      blobSplit nonce (gcmEncrypt key nonce roi)
        (gcmTag key nonce (gcmEncrypt key nonce roi)) hn
        (gcmTag_length key nonce (gcmEncrypt key nonce roi))
    rw [gcmEncrypt_length] at hlen
    exact ⟨hlen, e1, by rw [e2]; exact gcmTag_length key nonce _⟩
  · intro payload key w h hshort
    rw [decrypt_roi, if_pos (by omega)]
  · intro payload key w h hlong htag
    rw [decrypt_roi, if_neg (by omega), if_neg htag]
  · intro payload key w h hlong htag hlen
    rw [decrypt_roi, if_neg (by omega), if_pos htag, if_neg hlen]

/-- Concrete blob with a valid tag but payload length 31, so the
decrypted plaintext has 3 bytes whereas a 5x5 ROI needs 75; used by
the C7 witness. -/
def c7blob : List Nat :=
  (encrypt_roi [9, 9, 9] (List.replicate 16 1) (List.replicate 12 2)).toOption.getD []

theorem roi_crypto_error_handling_witness :
    encrypt_roi [5] [1, 2, 3] (List.replicate 12 0)
      = Except.error CryptoErr.invalidKeyLength ∧
    decrypt_roi [0, 1, 2] (List.replicate 16 0) 1 1
      = Except.error CryptoErr.truncated ∧
    decrypt_roi (List.replicate 28 0) (List.replicate 16 0) 1 1
      = Except.error CryptoErr.authFailed ∧
    decrypt_roi c7blob (List.replicate 16 1) 5 5
      = Except.error CryptoErr.shapeMismatch := by
  refine ⟨roi_crypto_error_handling.1 [5] [1, 2, 3] (List.replicate 12 0)
      |>.2.1 (by decide), ?_, ?_, ?_⟩
  · exact roi_crypto_error_handling.2.1 [0, 1, 2] (List.replicate 16 0) 1 1
      (by decide)
  · exact roi_crypto_error_handling.2.2.1 (List.replicate 28 0)
      (List.replicate 16 0) 1 1 (by decide) (by decide)
  · exact roi_crypto_error_handling.2.2.2 c7blob (List.replicate 16 1) 5 5
      (by decide) (by decide) (by decide)

/-! ## MP4 UUID-box packager (`scripts/mp4_packager.py`)

Files are byte strings (`List Nat`).  The packager appends one `uuid`
box and the extractor walks the file's top-level boxes with a cursor
`pos` that mirrors the source's `offset`/stream position; the `while
offset < file_size` loop is embedded with a fuel argument, one unit per
iteration (each iteration advances `pos` by at least 8, so
`fs.length + 1` units always suffice from position 0). -/

/-- Errors of the packager: `FileNotFoundError("embedded pack not
found...")`, the two `ValueError`s of the extractor and the
`ValueError` of `_build_uuid_box`. -/
inductive Mp4Err
  | notFound
  | malformedSize
  | malformedUuidLen
  | unexpectedEof
  | payloadTooLarge
deriving DecidableEq

/-- Big-endian value of a byte string (`struct.unpack(">I"/" >Q")`). -/
def beVal (bs : List Nat) : Nat :=
  bs.foldl (fun acc b => acc * 256 + b) 0

/-- Big-endian 4-byte encoding of `n < 2^32` (`struct.pack(">I", n)`). -/
def be32enc (n : Nat) : List Nat :=
  [n / 2 ^ 24 % 256, n / 2 ^ 16 % 256, n / 2 ^ 8 % 256, n % 256]

/-- The ASCII bytes of the box type `"uuid"`. -/
def uuidTypeBytes : List Nat := [117, 117, 105, 100]

/-- The bytes of `DEFAULT_PACK_UUID =
1f0cf7d5-1c3c-4e25-ba9d-5cb0fc61f847`. -/
def packUuidBytes : List Nat :=
  [31, 12, 247, 213, 28, 60, 78, 37, 186, 157, 92, 176, 252, 97, 248, 71]

/-- Embedding of `_build_uuid_box` (`scripts/mp4_packager.py`, lines
14-30): `size(4, big-endian) | "uuid" | uuid(16) | payload`, failing
when `box_size = 4 + 4 + 16 + |payload| = 24 + |payload| >= 2^32`. -/
def buildUuidBox (payload uuidB : List Nat) : Except Mp4Err (List Nat) :=
  if 24 + payload.length < 2 ^ 32 then
    Except.ok (be32enc (24 + payload.length) ++ uuidTypeBytes
      ++ uuidB ++ payload)
  else Except.error Mp4Err.payloadTooLarge

/-- Embedding of `embed_pack_into_mp4` (`scripts/mp4_packager.py`,
lines 33-63) at the byte level: append the uuid box to the video's
bytes (the copy-then-append versus in-place distinction only concerns
file paths). -/
def embedPackBytes (video payload uuidB : List Nat) :
    Except Mp4Err (List Nat) :=
  (buildUuidBox payload uuidB).map (fun box => video ++ box)

/-- Bytes `fs[pos : pos + n]`, as returned by `stream.read(n)` at
stream position `pos` (short reads at EOF return what remains). -/
def readAt (fs : List Nat) (pos n : Nat) : List Nat :=
  (fs.drop pos).take n

/-- One iteration of the extractor loop after the size field (and any
`largesize`) has been read (`scripts/mp4_packager.py`, lines 99-124):
`pos2` is the stream position after the header, `headerSize` is 8 or
16, `sizeField` the (possibly 64-bit) size value.  Returns either the
loop's result (`Sum.inl`) or the next position (`Sum.inr`). -/
def boxStep (fs uuidB : List Nat) (pos2 headerSize sizeField : Nat)
    (boxType : List Nat) : Except Mp4Err (List Nat) ⊕ Nat :=
  let size := if sizeField = 0 then fs.length - pos2 + headerSize else sizeField
  if size < headerSize then Sum.inl (Except.error Mp4Err.malformedSize)
  else if boxType = uuidTypeBytes then
    if fs.length < pos2 + 16 then Sum.inl (Except.error Mp4Err.notFound)
    else if size - headerSize < 16 then
      Sum.inl (Except.error Mp4Err.malformedUuidLen)
    else if readAt fs pos2 16 = uuidB then
      if fs.length < pos2 + 16 + (size - headerSize - 16) then
        Sum.inl (Except.error Mp4Err.unexpectedEof)
      else Sum.inl (Except.ok (readAt fs (pos2 + 16) (size - headerSize - 16)))
    else Sum.inr (pos2 + 16 + (size - headerSize - 16))
  else Sum.inr (pos2 + (size - headerSize))

/-- The extractor's `while offset < file_size` loop
(`scripts/mp4_packager.py`, lines 80-124), with explicit fuel. -/
def extractLoop (fs uuidB : List Nat) : Nat → Nat → Except Mp4Err (List Nat)
  | 0, _ => Except.error Mp4Err.notFound
  | fuel + 1, pos =>
    if fs.length ≤ pos then Except.error Mp4Err.notFound
    else if fs.length < pos + 8 then Except.error Mp4Err.notFound
    else
      let sizeField := beVal (readAt fs pos 4)
      let boxType := readAt fs (pos + 4) 4
      let step :=
        if sizeField = 1 then
          if fs.length < pos + 16 then Sum.inl (Except.error Mp4Err.notFound)
          else boxStep fs uuidB (pos + 16) 16 (beVal (readAt fs (pos + 8) 8))
            boxType
        else boxStep fs uuidB (pos + 8) 8 sizeField boxType
      match step with
      | Sum.inl r => r
      | Sum.inr pos2 => extractLoop fs uuidB fuel pos2

/-- Embedding of `extract_pack_from_mp4` (`scripts/mp4_packager.py`,
lines 66-126). -/
def extractPackBytes (fs uuidB : List Nat) : Except Mp4Err (List Nat) :=
  extractLoop fs uuidB (fs.length + 1) 0

/-- Header size of a box as the walker computes it: 16 when the 32-bit
size field is 1 (64-bit `largesize` follows), 8 otherwise. -/
def headerSizeOf (b : List Nat) : Nat :=
  if beVal (b.take 4) = 1 then 16 else 8

/-- Declared size of a box: the `largesize` when the 32-bit field is 1,
the 32-bit field otherwise. -/
def boxSizeOf (b : List Nat) : Nat :=
  if beVal (b.take 4) = 1 then beVal ((b.drop 8).take 8) else beVal (b.take 4)

/-- A top-level ISO-BMFF box with an explicit size: its declared size
is nonzero (not a to-EOF box) and equals its byte length, and the bytes
cover at least the header. -/
def ExplicitSizedBox (b : List Nat) : Prop :=
  headerSizeOf b ≤ b.length ∧ boxSizeOf b = b.length ∧ boxSizeOf b ≠ 0

/-- A box the walker skips: explicit size and, when its type is
`uuid`, a full 16-byte UUID different from the target. -/
def NonTargetBox (uuidB b : List Nat) : Prop :=
  ExplicitSizedBox b ∧
  ((b.drop 4).take 4 = uuidTypeBytes →
    headerSizeOf b + 16 ≤ b.length ∧ (b.drop (headerSizeOf b)).take 16 ≠ uuidB)

instance (b : List Nat) : Decidable (ExplicitSizedBox b) := by
  unfold ExplicitSizedBox; infer_instance

instance (uuidB b : List Nat) : Decidable (NonTargetBox uuidB b) := by
  unfold NonTargetBox; infer_instance

theorem be32enc_length (n : Nat) : (be32enc n).length = 4 := rfl

theorem beVal_be32enc (n : Nat) (h : n < 2 ^ 32) : beVal (be32enc n) = n := by
  simp only [beVal, be32enc, List.foldl]
  omega

theorem pos_bound_of_drop (fs b rest : List Nat) (pos : Nat)
    (hdrop : fs.drop pos = b ++ rest) (hb : b ≠ []) :
    pos + b.length + rest.length = fs.length := by
  have h1 : (fs.drop pos).length = fs.length - pos := List.length_drop pos fs
  rw [hdrop, List.length_append] at h1
  by_cases hp : pos ≤ fs.length
  · omega
  · exfalso
    have h2 : fs.drop pos = [] := List.drop_eq_nil_of_le (by omega)
    rw [hdrop] at h2
    exact hb (List.append_eq_nil.mp h2).1

theorem readAt_of_drop (fs b rest : List Nat) (pos k n : Nat)
    (hdrop : fs.drop pos = b ++ rest) (hkn : k + n ≤ b.length) :
    readAt fs (pos + k) n = (b.drop k).take n := by
  unfold readAt
  rw [← List.drop_drop, hdrop, List.drop_append_of_le_length (by omega),
    List.take_append_of_le_length (by simp [List.length_drop]; omega)]

theorem readAt_of_drop0 (fs b rest : List Nat) (pos n : Nat)
    (hdrop : fs.drop pos = b ++ rest) (hn : n ≤ b.length) :
    readAt fs pos n = b.take n := by
  have h := readAt_of_drop fs b rest pos 0 n hdrop (by omega)
  simpa using h

theorem boxStep_skip (fs uuidB b rest : List Nat) (pos hs : Nat)
    (hdrop : fs.drop pos = b ++ rest)
    (hhs : hs ≤ b.length) (h8 : 8 ≤ hs) (hnz : b.length ≠ 0)
    (huuid : (b.drop 4).take 4 = uuidTypeBytes →
      hs + 16 ≤ b.length ∧ (b.drop hs).take 16 ≠ uuidB) :
    boxStep fs uuidB (pos + hs) hs b.length ((b.drop 4).take 4)
      = Sum.inr (pos + b.length) := by
  have hbne : b ≠ [] := by
    intro h
    rw [h] at hnz
    simp at hnz
  have hfs : pos + b.length + rest.length = fs.length :=
    pos_bound_of_drop fs b rest pos hdrop hbne
  unfold boxStep
  rw [if_neg hnz, if_neg (by omega)]
  by_cases ht : (b.drop 4).take 4 = uuidTypeBytes
  · obtain ⟨h16, hne⟩ := huuid ht
    rw [if_pos ht, if_neg (by omega), if_neg (by omega),
      readAt_of_drop fs b rest pos hs 16 hdrop h16, if_neg hne]
    congr 1
    omega
  · rw [if_neg ht]
    congr 1
    omega

theorem extractLoop_skip (fs uuidB b rest : List Nat) (pos fuel : Nat)
    (hb : NonTargetBox uuidB b) (hdrop : fs.drop pos = b ++ rest) :
    extractLoop fs uuidB (fuel + 1) pos
      = extractLoop fs uuidB fuel (pos + b.length) := by
  obtain ⟨⟨hhs, hsize, hnz⟩, huuid⟩ := hb
  have hb8 : 8 ≤ b.length := by
    refine le_trans ?_ hhs
    unfold headerSizeOf
    split <;> omega
  have hbne : b ≠ [] := by
    intro h
    rw [h] at hb8
    simp at hb8
  have hfs : pos + b.length + rest.length = fs.length :=
    pos_bound_of_drop fs b rest pos hdrop hbne
  have hr4 : readAt fs pos 4 = b.take 4 :=
    readAt_of_drop0 fs b rest pos 4 hdrop (by omega)
  have hrt : readAt fs (pos + 4) 4 = (b.drop 4).take 4 :=
    readAt_of_drop fs b rest pos 4 4 hdrop (by omega)
  rw [extractLoop, if_neg (by omega), if_neg (by omega)]
  simp only [hr4, hrt]
  by_cases h1 : beVal (b.take 4) = 1
  · have hhs16 : headerSizeOf b = 16 := by
      unfold headerSizeOf
      rw [if_pos h1]
    rw [hhs16] at hhs huuid
    have hlarge : readAt fs (pos + 8) 8 = (b.drop 8).take 8 :=
      readAt_of_drop fs b rest pos 8 8 hdrop (by omega)
    have hbig : beVal ((b.drop 8).take 8) = b.length := by
      rw [← hsize]
      unfold boxSizeOf
      rw [if_pos h1]
    rw [if_pos h1, if_neg (by omega), hlarge, hbig,
      boxStep_skip fs uuidB b rest pos 16 hdrop hhs (by omega)
        (by omega) huuid]
  · have hhs8 : headerSizeOf b = 8 := by
      unfold headerSizeOf
      rw [if_neg h1]
    rw [hhs8] at hhs huuid
    have hsz : beVal (b.take 4) = b.length := by
      rw [← hsize]
      unfold boxSizeOf
      rw [if_neg h1]
    rw [if_neg h1, hsz,
      boxStep_skip fs uuidB b rest pos 8 hdrop hhs (by omega)
        (by omega) huuid]

/-- The uuid box `embed_pack_into_mp4` appends for payload `p`. -/
def targetBox (uuidB p : List Nat) : List Nat :=
  be32enc (24 + p.length) ++ uuidTypeBytes ++ uuidB ++ p

theorem targetBox_length (uuidB p : List Nat) (hu : uuidB.length = 16) :
    (targetBox uuidB p).length = 24 + p.length := by
  simp [targetBox, be32enc, uuidTypeBytes, hu]
  omega

theorem extractLoop_found (fs uuidB p rest : List Nat) (pos fuel : Nat)
    (hp : 24 + p.length < 2 ^ 32) (hu : uuidB.length = 16)
    (hdrop : fs.drop pos = targetBox uuidB p ++ rest) :
    extractLoop fs uuidB (fuel + 1) pos = Except.ok p := by
  have htb : (targetBox uuidB p).length = 24 + p.length :=
    targetBox_length uuidB p hu
  have hbne : targetBox uuidB p ≠ [] := by
    intro h
    rw [h] at htb
    simp at htb
    omega
  have hfs : pos + (targetBox uuidB p).length + rest.length = fs.length :=
    pos_bound_of_drop fs _ rest pos hdrop hbne
  have ht4 : (targetBox uuidB p).take 4 = be32enc (24 + p.length) := rfl
  have htype : ((targetBox uuidB p).drop 4).take 4 = uuidTypeBytes := rfl
  have hd8 : (targetBox uuidB p).drop 8 = uuidB ++ p := rfl
  have hfield : ((targetBox uuidB p).drop 8).take 16 = uuidB := by
    rw [hd8, ← hu]
    exact List.take_left _ _
  have hpay : ((targetBox uuidB p).drop 24).take p.length = p := by
    have h1 : ((targetBox uuidB p).drop 8).drop 16 = (targetBox uuidB p).drop 24 :=
      List.drop_drop 16 8 _
    rw [← h1, hd8, ← hu, List.drop_left, List.take_length]
  have hr4 : readAt fs pos 4 = be32enc (24 + p.length) := by
    rw [readAt_of_drop0 fs _ rest pos 4 hdrop (by omega), ht4]
  have hrt : readAt fs (pos + 4) 4 = uuidTypeBytes := by
    rw [readAt_of_drop fs _ rest pos 4 4 hdrop (by omega), htype]
  have hru : readAt fs (pos + 8) 16 = uuidB := by
    rw [readAt_of_drop fs _ rest pos 8 16 hdrop (by omega), hfield]
  have hrp : readAt fs (pos + 24) p.length = p := by
    rw [readAt_of_drop fs _ rest pos 24 p.length hdrop (by omega), hpay]
  rw [htb] at hfs
  rw [extractLoop, if_neg (by omega), if_neg (by omega)]
  simp only [hr4, hrt]
  rw [beVal_be32enc _ hp, if_neg (show ¬(24 + p.length = 1) by omega)]
  unfold boxStep
  rw [if_neg (show ¬(24 + p.length = 0) by omega),
    if_neg (show ¬(24 + p.length < 8) by omega),
    if_pos (show uuidTypeBytes = uuidTypeBytes from rfl),
    if_neg (show ¬(fs.length < pos + 8 + 16) by omega),
    if_neg (show ¬(24 + p.length - 8 < 16) by omega),
    hru, if_pos (show uuidB = uuidB from rfl),
    if_neg (show ¬(fs.length < pos + 8 + 16 + (24 + p.length - 8 - 16)) by omega)]
  rw [show pos + 8 + 16 = pos + 24 by omega,
    show 24 + p.length - 8 - 16 = p.length by omega, hrp]

theorem extractLoop_boxes (uuidB p : List Nat) (hu : uuidB.length = 16)
    (hp : 24 + p.length < 2 ^ 32) :
    ∀ (boxes : List (List Nat)) (fs : List Nat) (pos fuel : Nat),
      (∀ b ∈ boxes, NonTargetBox uuidB b) →
      boxes.length < fuel →
      fs.drop pos = boxes.flatten ++ targetBox uuidB p →
      extractLoop fs uuidB fuel pos = Except.ok p := by
  intro boxes
  induction boxes with
  | nil =>
    intro fs pos fuel _ hfuel hdrop
    obtain ⟨f, rfl⟩ : ∃ f, fuel = f + 1 := ⟨fuel - 1, by omega⟩
    exact extractLoop_found fs uuidB p [] pos f hp hu (by simpa using hdrop)
  | cons b bs ih =>
    intro fs pos fuel hv hfuel hdrop
    obtain ⟨f, rfl⟩ : ∃ f, fuel = f + 1 := ⟨fuel - 1, by omega⟩
    have hdrop' : fs.drop pos = b ++ (bs.flatten ++ targetBox uuidB p) := by
      simpa [List.flatten, List.append_assoc] using hdrop
    rw [extractLoop_skip fs uuidB b (bs.flatten ++ targetBox uuidB p) pos f
      (hv b (by simp)) hdrop']
    refine ih fs (pos + b.length) f (fun x hx => hv x (by simp [hx]))
      (by simpa using hfuel) ?_
    have h2 : fs.drop (pos + b.length) = (fs.drop pos).drop b.length :=
      (List.drop_drop b.length pos fs).symm
    rw [h2, hdrop', List.drop_left]

theorem length_le_join_length (boxes : List (List Nat))
    (h : ∀ b ∈ boxes, b ≠ []) : boxes.length ≤ boxes.flatten.length := by
  induction boxes with
  | nil => simp
  | cons b bs ih =>
    have hb : b ≠ [] := h b (by simp)
    have hbs := ih (fun x hx => h x (by simp [hx]))
    have hb1 : 1 ≤ b.length := by
      cases b with
      | nil => exact absurd rfl hb
      | cons x xs => simp
    simp only [List.flatten_cons, List.length_cons, List.length_append]
    omega

/-- C3 (amended): `extract(embed(v, p)) = p` for every pack `p` with
`|p| + 24 < 2^32` and every file `v` that parses as a sequence of
top-level ISO-BMFF boxes with explicit sizes (32-bit, or `size == 1`
with 64-bit largesize, but no `size == 0` to-EOF box), none of which is
a uuid box carrying the fixed UUID; the walker never descends into
container boxes (it only scans top-level boxes, by construction). -/
theorem mp4_embed_extract_roundtrip (boxes : List (List Nat)) (p out : List Nat)
    (hvalid : ∀ b ∈ boxes, NonTargetBox packUuidBytes b)
    (hp : 24 + p.length < 2 ^ 32)
    (hembed : embedPackBytes boxes.flatten p packUuidBytes = Except.ok out) :
    extractPackBytes out packUuidBytes = Except.ok p := by
  have hout : out = boxes.flatten ++ targetBox packUuidBytes p := by
    unfold embedPackBytes buildUuidBox at hembed
    rw [if_pos hp] at hembed
    simpa [targetBox, Except.map] using (Except.ok.inj hembed).symm
  have hne : ∀ b ∈ boxes, b ≠ [] := by
    intro b hb hnil
    have h8 : 8 ≤ b.length := by
      refine le_trans ?_ (hvalid b hb).1.1
      unfold headerSizeOf
      split <;> omega
    rw [hnil] at h8
    simp at h8
  have hj := length_le_join_length boxes hne
  have hol : out.length = boxes.flatten.length + (targetBox packUuidBytes p).length := by
    rw [hout, List.length_append]
  unfold extractPackBytes
  exact extractLoop_boxes packUuidBytes p rfl hp boxes out 0 (out.length + 1)
    hvalid (by omega) (by simpa using hout)

/-- An 8-byte MP4 consisting of a single `free` box with `size == 0`
(box runs to end of file) — a well-formed top-level box sequence that
contains no uuid box. -/
def sizeZeroMp4 : List Nat := [0, 0, 0, 0, 102, 114, 101, 101]

/-- The result of embedding the one-byte pack `[42]` into
`sizeZeroMp4`. -/
def sizeZeroEmbedded : List Nat :=
  (embedPackBytes sizeZeroMp4 [42] packUuidBytes).toOption.getD []

/-- C3 counterexample: the claim quantifies over every file that parses
as a sequence of top-level boxes — including a final `size == 0`
(to-EOF) box, which the claim explicitly lists as handled.  For the
8-byte `size == 0` `free` box, extraction before embedding reports
NotFound (so the video carries no pack), but after embedding the to-EOF
box swallows the appended uuid box and extraction still reports
NotFound instead of returning the pack `[42]`. -/
theorem mp4_embed_extract_counterexample :
    beVal (sizeZeroMp4.take 4) = 0 ∧
    extractPackBytes sizeZeroMp4 packUuidBytes = Except.error Mp4Err.notFound ∧
    embedPackBytes sizeZeroMp4 [42] packUuidBytes = Except.ok sizeZeroEmbedded ∧
    extractPackBytes sizeZeroEmbedded packUuidBytes
      = Except.error Mp4Err.notFound := by
  refine ⟨rfl, rfl, rfl, rfl⟩

/-- A single `ftyp` box with explicit size 8 (header only). -/
def c3video : List Nat := [0, 0, 0, 8, 102, 116, 121, 112]

/-- The result of embedding the pack `[1, 2, 3]` after `c3video`. -/
def c3out : List Nat :=
  (embedPackBytes c3video [1, 2, 3] packUuidBytes).toOption.getD []

theorem mp4_embed_extract_roundtrip_witness :
    (∀ b ∈ [c3video], NonTargetBox packUuidBytes b) ∧
    embedPackBytes ([c3video].flatten) [1, 2, 3] packUuidBytes
      = Except.ok c3out ∧
    extractPackBytes c3out packUuidBytes = Except.ok [1, 2, 3] := by
  have hemb : embedPackBytes ([c3video].flatten) [1, 2, 3] packUuidBytes
      = Except.ok c3out := rfl
  exact ⟨by decide, hemb,
    mp4_embed_extract_roundtrip [c3video] [1, 2, 3] c3out (by decide)
      (by norm_num) hemb⟩

/-! ## Frames and obfuscation kernels (`scripts/video_pipeline.py`)

A frame is a `height x width` grid of pixels (`pix` is total; only
indices below the dimensions are meaningful).  The pixel type is
abstract: one value stands for the 3 bytes of a BGR pixel, so
"byte-for-byte equal" outside a region is pixel equality outside it.
NumPy slice assignment `frame[y1:y2, x1:x2] = g` with non-negative
bounds selects rows `min y1 H .. min y2 H` and columns
`min x1 W .. min x2 W` (the worker and restorer only ever pass
clamped, non-negative coordinates).  The external `cv2` kernels
(`GaussianBlur`, `resize`) are modelled as an arbitrary pixel-level
oracle `CvExt`; cv2's contract fixes the output dimensions, which the
wrappers record. -/

structure Frame (α : Type) where
  height : Nat
  width : Nat
  pix : Nat → Nat → α

/-- The ROI view `frame[y1:y2, x1:x2]` (NumPy slicing semantics for
non-negative bounds). -/
def crop {α : Type} (f : Frame α) (x1 y1 x2 y2 : Nat) : Frame α :=
  { height := min y2 f.height - min y1 f.height
    width := min x2 f.width - min x1 f.width
    pix := fun i j => f.pix (min y1 f.height + i) (min x1 f.width + j) }

/-- In-place slice assignment `frame[y1:y2, x1:x2] = g` where `g` gives
the new content relative to the slice origin. -/
def writeRect {α : Type} (f : Frame α) (x1 y1 x2 y2 : Nat)
    (g : Nat → Nat → α) : Frame α :=
  { f with pix := fun r c =>
      if min y1 f.height ≤ r ∧ r < min y2 f.height
          ∧ min x1 f.width ≤ c ∧ c < min x2 f.width
      then g (r - min y1 f.height) (c - min x1 f.width)
      else f.pix r c }

/-- Oracle for the external cv2 kernels: given the source ROI (and the
kernel parameters), the pixel value at each output coordinate.  The
obfuscation claims hold for every oracle. -/
structure CvExt (α : Type) where
  gaussianBlur : Frame α → Nat → Nat → Nat → α
  resizeLinear : Frame α → Nat → Nat → Nat → Nat → α
  resizeNearest : Frame α → Nat → Nat → Nat → Nat → α

/-- Embedding of `_apply_gaussian_blur` (`scripts/video_pipeline.py`,
lines 65-72).  `roi.size == 0` iff the slice has zero pixels (the
channel dimension 3 never vanishes).  `ksize = max(5,
(min(h,w)//2)*2+1)`; `cv2.GaussianBlur` preserves the ROI's
dimensions. -/
def applyGaussianBlur {α : Type} (ext : CvExt α) (f : Frame α)
    (x1 y1 x2 y2 : Nat) : Frame α :=
  let roi := crop f x1 y1 x2 y2
  if roi.height * roi.width = 0 then f
  else
    let ksize := max 5 (min roi.height roi.width / 2 * 2 + 1)
    writeRect f x1 y1 x2 y2 (ext.gaussianBlur roi ksize)

/-- Embedding of `_apply_mosaic` (`scripts/video_pipeline.py`, lines
75-85) with `cell_size = 14`: downsample to `(max(1, w//14),
max(1, h//14))` with `INTER_LINEAR`, upsample to `(w, h)` with
`INTER_NEAREST`; `cv2.resize` output has exactly the requested
dimensions. -/
def applyMosaic {α : Type} (ext : CvExt α) (f : Frame α)
    (x1 y1 x2 y2 : Nat) : Frame α :=
  let roi := crop f x1 y1 x2 y2
  if roi.height * roi.width = 0 then f
  else
    let gridW := max 1 (roi.width / 14)
    let gridH := max 1 (roi.height / 14)
    let small : Frame α := ⟨gridH, gridW, ext.resizeLinear roi gridW gridH⟩
    writeRect f x1 y1 x2 y2 (ext.resizeNearest small roi.width roi.height)

/-- Embedding of `_apply_pixelate` (`scripts/video_pipeline.py`, lines
88-98) with `scale = 0.15`.  Python's `int(w * 0.15)` truncates; the
float literal `0.15` is modelled as the exact rational `3/20`, so
`int(w * 0.15)` becomes the natural-number division `w * 3 / 20` (for
the concrete widths used in the counterexamples below the IEEE double
computation agrees with the exact rational one). -/
def applyPixelate {α : Type} (ext : CvExt α) (f : Frame α)
    (x1 y1 x2 y2 : Nat) : Frame α :=
  let roi := crop f x1 y1 x2 y2
  if roi.height * roi.width = 0 then f
  else
    let newW := max 1 (roi.width * 3 / 20)
    let newH := max 1 (roi.height * 3 / 20)
    let small : Frame α := ⟨newH, newW, ext.resizeLinear roi newW newH⟩
    writeRect f x1 y1 x2 y2 (ext.resizeNearest small roi.width roi.height)

/-- Embedding of `apply_obfuscation` (`scripts/video_pipeline.py`,
lines 101-109): lowercase the style, dispatch to mosaic / pixelate /
gaussian blur (the default branch). -/
def applyObfuscation {α : Type} (ext : CvExt α) (f : Frame α)
    (bbox : Nat × Nat × Nat × Nat) (style : String) : Frame α :=
  let s := style.toLower
  if s = "mosaic" then applyMosaic ext f bbox.1 bbox.2.1 bbox.2.2.1 bbox.2.2.2
  else if s = "pixelate" then
    applyPixelate ext f bbox.1 bbox.2.1 bbox.2.2.1 bbox.2.2.2
  else applyGaussianBlur ext f bbox.1 bbox.2.1 bbox.2.2.1 bbox.2.2.2

theorem writeRect_outside {α : Type} (f : Frame α) (x1 y1 x2 y2 : Nat)
    (g : Nat → Nat → α) (r c : Nat)
    (h : ¬(min y1 f.height ≤ r ∧ r < min y2 f.height
        ∧ min x1 f.width ≤ c ∧ c < min x2 f.width)) :
    (writeRect f x1 y1 x2 y2 g).pix r c = f.pix r c := by
  show (if min y1 f.height ≤ r ∧ r < min y2 f.height
      ∧ min x1 f.width ≤ c ∧ c < min x2 f.width
    then g (r - min y1 f.height) (c - min x1 f.width)
    else f.pix r c) = f.pix r c
  exact if_neg h

theorem applyGaussianBlur_outside {α : Type} (ext : CvExt α) (f : Frame α)
    (x1 y1 x2 y2 r c : Nat)
    (h : ¬(min y1 f.height ≤ r ∧ r < min y2 f.height
        ∧ min x1 f.width ≤ c ∧ c < min x2 f.width)) :
    (applyGaussianBlur ext f x1 y1 x2 y2).pix r c = f.pix r c := by
  unfold applyGaussianBlur
  by_cases hz : (crop f x1 y1 x2 y2).height * (crop f x1 y1 x2 y2).width = 0
  · rw [if_pos hz]
  · rw [if_neg hz]
    exact writeRect_outside f x1 y1 x2 y2 _ r c h

theorem applyMosaic_outside {α : Type} (ext : CvExt α) (f : Frame α)
    (x1 y1 x2 y2 r c : Nat)
    (h : ¬(min y1 f.height ≤ r ∧ r < min y2 f.height
        ∧ min x1 f.width ≤ c ∧ c < min x2 f.width)) :
    (applyMosaic ext f x1 y1 x2 y2).pix r c = f.pix r c := by
  unfold applyMosaic
  by_cases hz : (crop f x1 y1 x2 y2).height * (crop f x1 y1 x2 y2).width = 0
  · rw [if_pos hz]
  · rw [if_neg hz]
    exact writeRect_outside f x1 y1 x2 y2 _ r c h

theorem applyPixelate_outside {α : Type} (ext : CvExt α) (f : Frame α)
    (x1 y1 x2 y2 r c : Nat)
    (h : ¬(min y1 f.height ≤ r ∧ r < min y2 f.height
        ∧ min x1 f.width ≤ c ∧ c < min x2 f.width)) :
    (applyPixelate ext f x1 y1 x2 y2).pix r c = f.pix r c := by
  unfold applyPixelate
  by_cases hz : (crop f x1 y1 x2 y2).height * (crop f x1 y1 x2 y2).width = 0
  · rw [if_pos hz]
  · rw [if_neg hz]
    exact writeRect_outside f x1 y1 x2 y2 _ r c h

theorem applyGaussianBlur_zero {α : Type} (ext : CvExt α) (f : Frame α)
    (x1 y1 x2 y2 : Nat)
    (hz : (crop f x1 y1 x2 y2).height * (crop f x1 y1 x2 y2).width = 0) :
    applyGaussianBlur ext f x1 y1 x2 y2 = f := by
  unfold applyGaussianBlur
  rw [if_pos hz]

theorem applyMosaic_zero {α : Type} (ext : CvExt α) (f : Frame α)
    (x1 y1 x2 y2 : Nat)
    (hz : (crop f x1 y1 x2 y2).height * (crop f x1 y1 x2 y2).width = 0) :
    applyMosaic ext f x1 y1 x2 y2 = f := by
  unfold applyMosaic
  rw [if_pos hz]

theorem applyPixelate_zero {α : Type} (ext : CvExt α) (f : Frame α)
    (x1 y1 x2 y2 : Nat)
    (hz : (crop f x1 y1 x2 y2).height * (crop f x1 y1 x2 y2).width = 0) :
    applyPixelate ext f x1 y1 x2 y2 = f := by
  unfold applyPixelate
  rw [if_pos hz]

/-- C6: for every frame, every bbox `(x1, y1, x2, y2)`, every style
string (mosaic, pixelate, and anything else — which the source sends to
the blur branch) and every cv2 oracle, `apply_obfuscation` changes only
the pixels of the slice `frame[y1:y2, x1:x2]`: every pixel outside it
is unchanged, and when the slice has zero area the frame is returned
unchanged everywhere. -/
theorem apply_obfuscation_outside_unchanged {α : Type} (ext : CvExt α)
    (f : Frame α) (x1 y1 x2 y2 : Nat) (style : String) :
    (∀ r c, ¬(min y1 f.height ≤ r ∧ r < min y2 f.height
        ∧ min x1 f.width ≤ c ∧ c < min x2 f.width) →
      (applyObfuscation ext f (x1, y1, x2, y2) style).pix r c = f.pix r c) ∧
    ((crop f x1 y1 x2 y2).height * (crop f x1 y1 x2 y2).width = 0 →
      applyObfuscation ext f (x1, y1, x2, y2) style = f) := by
  constructor
  · intro r c h
    unfold applyObfuscation
    dsimp only
    split_ifs with h1 h2
    · exact applyMosaic_outside ext f x1 y1 x2 y2 r c h
    · exact applyPixelate_outside ext f x1 y1 x2 y2 r c h
    · exact applyGaussianBlur_outside ext f x1 y1 x2 y2 r c h
  · intro hz
    unfold applyObfuscation
    dsimp only
    split_ifs with h1 h2
    · exact applyMosaic_zero ext f x1 y1 x2 y2 hz
    · exact applyPixelate_zero ext f x1 y1 x2 y2 hz
    · exact applyGaussianBlur_zero ext f x1 y1 x2 y2 hz

/-- Trivial cv2 oracle over `Nat` pixels, for witnesses. -/
def cvZero : CvExt Nat :=
  { gaussianBlur := fun _ _ _ _ => 0
    resizeLinear := fun _ _ _ _ _ => 0
    resizeNearest := fun _ _ _ _ _ => 0 }

/-- Concrete 4x4 frame of constant pixels, for witnesses. -/
def frame4 : Frame Nat := ⟨4, 4, fun _ _ => 5⟩

theorem apply_obfuscation_outside_unchanged_witness :
    (applyObfuscation cvZero frame4 (0, 0, 2, 2) "blur").pix 3 3
      = frame4.pix 3 3 ∧
    applyObfuscation cvZero frame4 (2, 2, 2, 4) "mosaic" = frame4 :=
  ⟨(apply_obfuscation_outside_unchanged cvZero frame4 0 0 2 2 "blur").1 3 3
      (by decide),
    (apply_obfuscation_outside_unchanged cvZero frame4 2 2 2 4 "mosaic").2
      (by decide)⟩

/-- Spec-shaped pixelate kernel, amended only in the rounding mode:
downsample the ROI to `(max(1, trunc(w * 0.15)), max(1,
trunc(h * 0.15)))` (with `0.15 = 3/20` exactly) using linear
interpolation, then upsample back to `(w, h)` using nearest-neighbour
interpolation. -/
def pixelateSpecTrunc {α : Type} (ext : CvExt α) (f : Frame α)
    (x1 y1 x2 y2 : Nat) : Frame α :=
  let roi := crop f x1 y1 x2 y2
  if roi.height * roi.width = 0 then f
  else
    let dw := max 1 (roi.width * 3 / 20)
    let dh := max 1 (roi.height * 3 / 20)
    writeRect f x1 y1 x2 y2
      (ext.resizeNearest ⟨dh, dw, ext.resizeLinear roi dw dh⟩
        roi.width roi.height)

/-- C8 (amended): the pixelate kernel downsamples the ROI to
`(max(1, trunc(w * 0.15)), max(1, trunc(h * 0.15)))` — truncation, not
rounding — with linear interpolation and then upsamples back to
`(w, h)` with nearest-neighbour interpolation, for every frame, bbox
and cv2 oracle. -/
theorem pixelate_kernel_trunc_dims {α : Type} (ext : CvExt α) (f : Frame α)
    (x1 y1 x2 y2 : Nat) :
    applyPixelate ext f x1 y1 x2 y2 = pixelateSpecTrunc ext f x1 y1 x2 y2 := rfl

/-- A cv2 oracle whose linear resize records the requested target
dimensions in every output pixel (`dw * 1000 + dh`) and whose
nearest-neighbour resize propagates the source pixel, so the pixels of
the pixelated output reveal the downsample dimensions the kernel
requested. -/
def dimsRecorder : CvExt Nat :=
  { gaussianBlur := fun _ _ _ _ => 0
    resizeLinear := fun _ dw dh _ _ => dw * 1000 + dh
    resizeNearest := fun small _ _ i j => small.pix i j }

/-- Constant 13x13 frame for the C8 counterexample. -/
def frame13 : Frame Nat := ⟨13, 13, fun _ _ => 0⟩

/-- C8 counterexample: on a 13x13 ROI the source computes the
downsample width `max(1, int(13 * 0.15)) = max(1, int(1.95)) = 1`
(truncation; the IEEE double product `13 * 0.15 = 1.9499999999999999…`
truncates to 1 as the exact rational does), whereas the claim's formula
`max(1, round(13 * 0.15)) = 2`.  The recording oracle shows the kernel
requests a 1x1 downsample, not the claimed 2x2. -/
theorem pixelate_dims_counterexample :
    (applyPixelate dimsRecorder frame13 0 0 13 13).pix 0 0 = 1 * 1000 + 1 ∧
    (applyPixelate dimsRecorder frame13 0 0 13 13).pix 0 0 ≠ 2 * 1000 + 2 ∧
    round ((13 : ℚ) * (3 / 20)) = 2 := by
  refine ⟨rfl, by decide, ?_⟩
  norm_num [round_eq]

/-! ## Worker per-frame region logic (`scripts/video_pipeline.py`)

The worker consumes `(frame_index, frame)` items; per frame it updates
the manual trackers, runs the detector, and for each reported box
clamps it to the frame, skips it when degenerate, encrypts the source
ROI and emits a region record.  External nondeterminism is passed in
explicitly: tracker update results are the already-rounded integer
corners (`int(round(x)) …`, any integers are possible), detector
results are the already-truncated `int(xyxy[k])` corners with label and
confidence, and the per-region `os.urandom(12)` nonces come from a
stream indexed by the number of regions encrypted so far.  Pixels are
BGR byte triples. -/

inductive RegionSource
  | manual
  | detection
deriving DecidableEq

/-- A region record as the worker emits it (the `block` dict of
`scripts/video_pipeline.py`, lines 206-212 and 260-266). -/
structure WRegion where
  label : String
  confidence : ℚ
  bbox : Int × Int × Int × Int
  encrypted : List Nat
  source : RegionSource
deriving DecidableEq

/-- The clamping and degeneracy check shared by the tracker branch
(lines 195-200) and the detection branch (lines 249-254):
`x1 = max(0, min(a, width-1))`, `y1 = max(0, min(b, height-1))`,
`x2 = max(0, min(c, width))`, `y2 = max(0, min(d, height))`, then skip
when `x2 <= x1 or y2 <= y1`. -/
def clampBox (a b c d : Int) (width height : Nat) :
    Option (Int × Int × Int × Int) :=
  if max 0 (min c (width : Int)) ≤ max 0 (min a ((width : Int) - 1))
      ∨ max 0 (min d (height : Int)) ≤ max 0 (min b ((height : Int) - 1))
  then none
  else some (max 0 (min a ((width : Int) - 1)),
    max 0 (min b ((height : Int) - 1)),
    max 0 (min c (width : Int)), max 0 (min d (height : Int)))

/-- Row-major bytes of `frame[y1:y2, x1:x2]` for a BGR frame — the
`roi.tobytes()` the worker encrypts (coordinates are the clamped,
non-negative values). -/
def roiBytes (f : Frame (Nat × Nat × Nat)) (x1 y1 x2 y2 : Int) : List Nat :=
  (List.range (y2 - y1).toNat).flatMap (fun i =>
    (List.range (x2 - x1).toNat).flatMap (fun j =>
      [(f.pix (y1.toNat + i) (x1.toNat + j)).1,
       (f.pix (y1.toNat + i) (x1.toNat + j)).2.1,
       (f.pix (y1.toNat + i) (x1.toNat + j)).2.2]))

/-- One manual tracker entry's update result for the current frame:
its id (`manual_<k>`) and, when `tracker.update` succeeded, the
reported box corners after `int(round(..))`. -/
structure TrackerUpd where
  id : String
  res : Option (Int × Int × Int × Int)

/-- One detector box: label, confidence and the `int(..)`-truncated
`xyxy` corners. -/
structure Detection where
  label : String
  conf : ℚ
  box : Int × Int × Int × Int

/-- The manual-tracker loop of the worker (lines 189-225): for each
live tracker whose update succeeded, clamp, skip degenerate boxes,
encrypt the source ROI (consuming one nonce) and emit a
`source = manual` record with `confidence 1.0` and the tracker id as
label. -/
def processManualTrackers (f : Frame (Nat × Nat × Nat)) (key : List Nat)
    (nonces : Nat → List Nat) :
    List TrackerUpd → Nat → Except CryptoErr (List WRegion × Nat)
  | [], k => Except.ok ([], k)
  | t :: ts, k =>
    match t.res with
    | none => processManualTrackers f key nonces ts k
    | some (a, b, c, d) =>
      match clampBox a b c d f.width f.height with
      | none => processManualTrackers f key nonces ts k
      | some (x1, y1, x2, y2) =>
        match encrypt_roi (roiBytes f x1 y1 x2 y2) key (nonces k) with
        | Except.error e => Except.error e
        | Except.ok blob =>
          match processManualTrackers f key nonces ts (k + 1) with
          | Except.error e => Except.error e
          | Except.ok rest =>
            Except.ok (WRegion.mk t.id 1 (x1, y1, x2, y2) blob
              RegionSource.manual :: rest.1, rest.2)

/-- The detection loop of the worker (lines 228-277): for each detector
box whose label is in the sensitive classes, clamp, skip degenerate
boxes, encrypt the source ROI and emit a `source = detection`
record. -/
def processDetections (f : Frame (Nat × Nat × Nat)) (key : List Nat)
    (nonces : Nat → List Nat) (classes : List String) :
    List Detection → Nat → Except CryptoErr (List WRegion × Nat)
  | [], k => Except.ok ([], k)
  | dt :: ds, k =>
    if dt.label ∈ classes then
      match clampBox dt.box.1 dt.box.2.1 dt.box.2.2.1 dt.box.2.2.2
          f.width f.height with
      | none => processDetections f key nonces classes ds k
      | some (x1, y1, x2, y2) =>
        match encrypt_roi (roiBytes f x1 y1 x2 y2) key (nonces k) with
        | Except.error e => Except.error e
        | Except.ok blob =>
          match processDetections f key nonces classes ds (k + 1) with
          | Except.error e => Except.error e
          | Except.ok rest =>
            Except.ok (WRegion.mk dt.label dt.conf (x1, y1, x2, y2) blob
              RegionSource.detection :: rest.1, rest.2)
    else processDetections f key nonces classes ds k

/-- The worker's per-frame metadata list (lines 184-284): the manual
records followed by the detection records (`metadata.extend(manual)`
then `metadata.extend(detection)`). -/
def workerFrameMetadata (f : Frame (Nat × Nat × Nat))
    (trackers : List TrackerUpd) (dets : List Detection)
    (classes : List String) (key : List Nat) (nonces : Nat → List Nat) :
    Except CryptoErr (List WRegion) :=
  match processManualTrackers f key nonces trackers 0 with
  | Except.error e => Except.error e
  | Except.ok m =>
    match processDetections f key nonces classes dets m.2 with
    | Except.error e => Except.error e
    | Except.ok d => Except.ok (m.1 ++ d.1)

/-- The bbox invariant of the spec: `0 <= x1 < x2 <= width` and
`0 <= y1 < y2 <= height`. -/
def bboxWithin (bb : Int × Int × Int × Int) (width height : Nat) : Prop :=
  0 ≤ bb.1 ∧ bb.1 < bb.2.2.1 ∧ bb.2.2.1 ≤ (width : Int)
    ∧ 0 ≤ bb.2.1 ∧ bb.2.1 < bb.2.2.2 ∧ bb.2.2.2 ≤ (height : Int)

instance (bb : Int × Int × Int × Int) (width height : Nat) :
    Decidable (bboxWithin bb width height) := by
  unfold bboxWithin; infer_instance

theorem clampBox_sound (a b c d : Int) (width height : Nat)
    (x1 y1 x2 y2 : Int)
    (h : clampBox a b c d width height = some (x1, y1, x2, y2)) :
    bboxWithin (x1, y1, x2, y2) width height := by
  unfold clampBox at h
  split at h
  · cases h
  · rename_i hne
    push_neg at hne
    obtain ⟨hx, hy⟩ := hne
    have heq := Option.some.inj h
    obtain ⟨rfl, rfl, rfl, rfl⟩ :
        max 0 (min a ((width : Int) - 1)) = x1
        ∧ max 0 (min b ((height : Int) - 1)) = y1
        ∧ max 0 (min c (width : Int)) = x2
        ∧ max 0 (min d (height : Int)) = y2 :=
      ⟨congrArg (fun p => p.1) heq, congrArg (fun p => p.2.1) heq,
        congrArg (fun p => p.2.2.1) heq, congrArg (fun p => p.2.2.2) heq⟩
    refine ⟨le_max_left _ _, hx, ?_, le_max_left _ _, hy, ?_⟩
    · exact max_le (Int.ofNat_nonneg width) (min_le_right _ _)
    · exact max_le (Int.ofNat_nonneg height) (min_le_right _ _)

theorem processManualTrackers_sound (f : Frame (Nat × Nat × Nat))
    (key : List Nat) (nonces : Nat → List Nat) :
    ∀ (ts : List TrackerUpd) (k : Nat) (out : List WRegion × Nat),
      processManualTrackers f key nonces ts k = Except.ok out →
      ∀ r ∈ out.1, bboxWithin r.bbox f.width f.height
        ∧ r.source = RegionSource.manual := by
  intro ts
  induction ts with
  | nil =>
    intro k out hout r hr
    rw [processManualTrackers] at hout
    cases Except.ok.inj hout
    simp at hr
  | cons t ts ih =>
    intro k out hout r hr
    rw [processManualTrackers] at hout
    split at hout
    · exact ih k out hout r hr
    · rename_i a b c d _
      split at hout
      · exact ih k out hout r hr
      · rename_i x1 y1 x2 y2 hcl
        split at hout
        · cases hout
        · rename_i blob henc
          split at hout
          · cases hout
          · rename_i rest hrest
            cases Except.ok.inj hout
            cases hr with
            | head =>
              exact ⟨clampBox_sound a b c d f.width f.height x1 y1 x2 y2 hcl,
                rfl⟩
            | tail _ hr => exact ih (k + 1) rest hrest r hr

theorem processDetections_sound (f : Frame (Nat × Nat × Nat))
    (key : List Nat) (nonces : Nat → List Nat) (classes : List String) :
    ∀ (ds : List Detection) (k : Nat) (out : List WRegion × Nat),
      processDetections f key nonces classes ds k = Except.ok out →
      ∀ r ∈ out.1, bboxWithin r.bbox f.width f.height
        ∧ r.source = RegionSource.detection := by
  intro ds
  induction ds with
  | nil =>
    intro k out hout r hr
    rw [processDetections] at hout
    cases Except.ok.inj hout
    simp at hr
  | cons dt ds ih =>
    intro k out hout r hr
    rw [processDetections] at hout
    split at hout
    · split at hout
      · exact ih k out hout r hr
      · rename_i x1 y1 x2 y2 hcl
        split at hout
        · cases hout
        · rename_i blob henc
          split at hout
          · cases hout
          · rename_i rest hrest
            cases Except.ok.inj hout
            cases hr with
            | head =>
              exact ⟨clampBox_sound _ _ _ _ f.width f.height x1 y1 x2 y2 hcl,
                rfl⟩
            | tail _ hr => exact ih (k + 1) rest hrest r hr
    · exact ih k out hout r hr

/-- C5: every region record the worker emits for a frame — manual or
detection source — has a bbox `(x1, y1, x2, y2)` with
`0 <= x1 < x2 <= width` and `0 <= y1 < y2 <= height` for the frame's
dimensions: both branches clamp the reported coordinates to the frame
and skip any box that is degenerate after clamping, for every frame,
every tracker report, every detector report and every nonce stream. -/
theorem worker_bbox_invariant (f : Frame (Nat × Nat × Nat))
    (trackers : List TrackerUpd) (dets : List Detection)
    (classes : List String) (key : List Nat) (nonces : Nat → List Nat)
    (md : List WRegion)
    (hmd : workerFrameMetadata f trackers dets classes key nonces
      = Except.ok md) :
    ∀ r ∈ md, bboxWithin r.bbox f.width f.height := by
  rw [workerFrameMetadata] at hmd
  split at hmd
  · cases hmd
  · rename_i m hm
    split at hmd
    · cases hmd
    · rename_i d hd
      cases Except.ok.inj hmd
      intro r hr
      rcases List.mem_append.mp hr with hr | hr
      · exact (processManualTrackers_sound f key nonces trackers 0 m hm
          r hr).1
      · exact (processDetections_sound f key nonces classes dets m.2 d hd
          r hr).1

/-- C10: within a frame's emitted metadata list, every manual-source
region precedes every detection-source region — the worker accumulates
the two groups separately and concatenates manual first. -/
theorem worker_manual_before_detection (f : Frame (Nat × Nat × Nat))
    (trackers : List TrackerUpd) (dets : List Detection)
    (classes : List String) (key : List Nat) (nonces : Nat → List Nat)
    (md : List WRegion)
    (hmd : workerFrameMetadata f trackers dets classes key nonces
      = Except.ok md) :
    ∀ (i j : Fin md.length),
      (md.get i).source = RegionSource.manual →
      (md.get j).source = RegionSource.detection →
      (i : Nat) < (j : Nat) := by
  rw [workerFrameMetadata] at hmd
  split at hmd
  · cases hmd
  · rename_i m hm
    split at hmd
    · cases hmd
    · rename_i d hd
      cases Except.ok.inj hmd
      intro i j hi hj
      have hmall : ∀ r ∈ m.1, r.source = RegionSource.manual :=
        fun r hr =>
          (processManualTrackers_sound f key nonces trackers 0 m hm r hr).2
      have hdall : ∀ r ∈ d.1, r.source = RegionSource.detection :=
        fun r hr =>
          (processDetections_sound f key nonces classes dets m.2 d hd r hr).2
      have hilt : (i : Nat) < m.1.length := by
        by_contra hge
        push_neg at hge
        have hlt : (i : Nat) - m.1.length < d.1.length := by
          have hb : (i : Nat) < m.1.length + d.1.length := by
            simpa [List.length_append] using i.isLt
          omega
        have hgi : (m.1 ++ d.1).get i = d.1[(i : Nat) - m.1.length] := by
          rw [List.get_eq_getElem]
          exact List.getElem_append_right hge
        rw [hgi] at hi
        have := hdall _ (List.getElem_mem hlt)
        rw [hi] at this
        cases this
      have hjge : m.1.length ≤ (j : Nat) := by
        by_contra hlt
        push_neg at hlt
        have hgj : (m.1 ++ d.1).get j = m.1[(j : Nat)] := by
          rw [List.get_eq_getElem]
          exact List.getElem_append_left hlt
        rw [hgj] at hj
        have := hmall _ (List.getElem_mem hlt)
        rw [hj] at this
        cases this
      omega

/-- Concrete 2x2 BGR frame for the worker witnesses. -/
def wframe : Frame (Nat × Nat × Nat) := ⟨2, 2, fun _ _ => (1, 2, 3)⟩

/-- One manual tracker reporting a box covering the frame. -/
def wtrackers : List TrackerUpd := [⟨"manual_0", some (0, 0, 2, 2)⟩]

/-- One detector box labelled `person`. -/
def wdets : List Detection := [⟨"person", 1, (0, 0, 1, 1)⟩]

/-- Sensitive classes for the witnesses. -/
def wclasses : List String := ["person"]

/-- All-zero 16-byte key for the worker witnesses. -/
def wkey : List Nat := List.replicate 16 0

/-- Constant nonce stream for the worker witnesses. -/
def wnonces : Nat → List Nat := fun _ => List.replicate 12 3

/-- The metadata list the worker emits on the witness inputs. -/
def wmd : List WRegion :=
  (workerFrameMetadata wframe wtrackers wdets wclasses wkey
    wnonces).toOption.getD []

theorem worker_bbox_invariant_witness :
    workerFrameMetadata wframe wtrackers wdets wclasses wkey wnonces
      = Except.ok wmd ∧
    ∀ r ∈ wmd, bboxWithin r.bbox 2 2 := by
  have hmd : workerFrameMetadata wframe wtrackers wdets wclasses wkey wnonces
      = Except.ok wmd := rfl
  exact ⟨hmd, worker_bbox_invariant wframe wtrackers wdets wclasses wkey
    wnonces wmd hmd⟩

/-- Tracker input for the C10 witness (two manual trackers). -/
def w10trackers : List TrackerUpd :=
  [⟨"manual_0", some (0, 0, 2, 2)⟩, ⟨"manual_1", some (1, 1, 2, 2)⟩]

/-- The metadata list the worker emits on the C10 witness inputs. -/
def w10md : List WRegion :=
  (workerFrameMetadata wframe w10trackers wdets wclasses wkey
    wnonces).toOption.getD []

theorem worker_manual_before_detection_witness :
    workerFrameMetadata wframe w10trackers wdets wclasses wkey wnonces
      = Except.ok w10md ∧
    ∀ (i j : Fin w10md.length),
      (w10md.get i).source = RegionSource.manual →
      (w10md.get j).source = RegionSource.detection →
      (i : Nat) < (j : Nat) := by
  have hmd : workerFrameMetadata wframe w10trackers wdets wclasses wkey
      wnonces = Except.ok w10md := rfl
  exact ⟨hmd, worker_manual_before_detection wframe w10trackers wdets
    wclasses wkey wnonces w10md hmd⟩

/-! ## Consumer loop (`scripts/video_pipeline.py`, lines 292-333)

The consumer drains `(frame_index, processed_frame, metadata)` items
until the sentinel; the items before the sentinel are modelled as a
list.  `run_pipeline` always passes a `DataPackWriter`, so
`data_pack_writer is not None` holds and only the `metadata` truthiness
test (non-empty list) gates the pack write. -/

/-- Consumer state: the FrameEntry writes issued to the
`DataPackWriter`, the frames written to the video encoder, and the
progress counter. -/
structure ConsumerState (α : Type) where
  packWrites : List (Nat × List WRegion)
  videoFrames : List α
  processed : Nat
deriving DecidableEq

/-- One iteration of the consumer loop (lines 314-329): write the
FrameEntry only when the metadata list is non-empty, always write the
frame and bump the progress counter. -/
def consumerStep {α : Type} (s : ConsumerState α)
    (item : Nat × α × List WRegion) : ConsumerState α :=
  { packWrites := s.packWrites
      ++ (if item.2.2.isEmpty then [] else [(item.1, item.2.2)])
    videoFrames := s.videoFrames ++ [item.2.1]
    processed := s.processed + 1 }

/-- The consumer loop over the items received before the sentinel. -/
def consumerRun {α : Type} (items : List (Nat × α × List WRegion)) :
    ConsumerState α :=
  items.foldl consumerStep ⟨[], [], 0⟩

theorem consumerRun_go {α : Type} (items : List (Nat × α × List WRegion))
    (s : ConsumerState α) :
    items.foldl consumerStep s
      = ⟨s.packWrites ++ (items.filter (fun it => !it.2.2.isEmpty)).map
            (fun it => (it.1, it.2.2)),
          s.videoFrames ++ items.map (fun it => it.2.1),
          s.processed + items.length⟩ := by
  induction items generalizing s with
  | nil => simp
  | cons it items ih =>
    rw [List.foldl_cons, ih]
    by_cases hemp : it.2.2.isEmpty
    · simp [consumerStep, List.filter_cons, hemp]
      omega
    · simp [consumerStep, List.filter_cons, hemp]
      omega

/-- C9: the consumer calls `write_frame_data(frame_index, regions)`
exactly for the items whose region list is non-empty — the pack
receives one FrameEntry per such item, in order — while every item's
frame is written to the output video and counted in the progress
counter, empty or not. -/
theorem consumer_pack_writes_exact {α : Type}
    (items : List (Nat × α × List WRegion)) :
    (consumerRun items).packWrites
        = (items.filter (fun it => !it.2.2.isEmpty)).map
            (fun it => (it.1, it.2.2)) ∧
    (consumerRun items).videoFrames = items.map (fun it => it.2.1) ∧
    (consumerRun items).processed = items.length := by
  unfold consumerRun
  rw [consumerRun_go]
  exact ⟨by simp, by simp, by simp⟩

/-! ## The `run_anonymization -> run_pipeline` call
(`scripts/anonymize_video.py`, lines 208-224 and
`scripts/video_pipeline.py`, lines 336-348)

Python binds a call's keyword arguments against the callee's parameter
list before executing its body; a keyword argument whose name is not a
parameter raises `TypeError` at the call site when the callee declares
no `**kwargs`. -/

/-- The parameters of `run_pipeline`, in declaration order
(`scripts/video_pipeline.py`, lines 336-348); the signature has no
`**kwargs`. -/
def runPipelineParams : List String :=
  ["video_path", "output_path", "model", "encryption_key",
   "data_pack_path", "hmac_key", "target_classes", "manual_rois",
   "status_callback", "style", "enable_detection"]

/-- The keyword-argument names `run_anonymization` passes to
`run_pipeline` (`scripts/anonymize_video.py`, lines 208-224; the first
six arguments are positional). -/
def runAnonymizationKwargNames : List String :=
  ["target_classes", "manual_rois", "status_callback", "style",
   "enable_detection", "worker_count", "cancel_event", "embed_pack",
   "embedded_output_path"]

/-- Python call binding for a callee without `**kwargs`: the call
raises `TypeError` iff some keyword argument's name is not among the
parameters. -/
def callRaisesTypeError (params kwargs : List String) : Bool :=
  kwargs.any (fun k => !params.contains k)

/-- C2: `run_anonymization` always invokes `run_pipeline` with the
keyword arguments `worker_count`, `cancel_event`, `embed_pack` and
`embedded_output_path`, none of which is a parameter of `run_pipeline`
(which has no `**kwargs`), so the call raises `TypeError` for every
request — before `run_pipeline`'s body (and hence frame processing or
pack finalization) can run. -/
theorem run_anonymization_call_type_error :
    callRaisesTypeError runPipelineParams runAnonymizationKwargNames = true ∧
    runAnonymizationKwargNames.filter
        (fun k => !runPipelineParams.contains k)
      = ["worker_count", "cancel_event", "embed_pack",
         "embedded_output_path"] := by
  constructor
  · rfl
  · rfl

/-! ## Restore engine (`scripts/restore_video.py`)

The data-pack reader lives in `scripts/data_pack.py`, which is not part
of the sources here; its `verify` is modelled from the spec.  The
restore `main` is embedded from the point where the hex keys have been
decoded, as a function of the pack, the keys, the anonymized video and
the writer's availability, returning the sequence of externally visible
events (video opened, writer created, frames written) together with
the result. -/

/-- One region block as the reader yields it (the `block` dict read
back from the pack): optional bbox and ciphertext. -/
structure RBlock where
  bbox : Option (Int × Int × Int × Int)
  encrypted : List Nat

/-- A parsed data pack: header fields, the per-frame region lists, and
the raw body bytes with the stored HMAC trailer. -/
structure DataPack where
  framerate : ℚ
  width : Nat
  height : Nat
  frames : List (Nat × List RBlock)
  bodyBytes : List Nat
  trailer : List Nat

/-- Modelled from the spec: `hmac_sha256(key, data) -> [u8;32]`
(section 4.1); the real function is HMAC-SHA256, any concrete 32-byte
function of (key, data) preserves what the sources rely on. -/
def hmacSha256 (key data : List Nat) : List Nat :=
  (List.range 32).map (fun i =>
    (key.foldl (fun a b => a * 131 + b) 9 * 131
      + data.foldl (fun a b => a * 251 + b) 17 * 251 + data.length + i) % 256)

/-- Modelled from the spec: `DataPackReader.verify(hmac_key)` of
`scripts/data_pack.py` (not under `src/`) "streams the entire body,
recomputes the HMAC, and compares in constant time — returning a bool
without throwing" (section 4.2); the trailer authenticates all
preceding bytes (I5). -/
def DataPackReader.verify (pack : DataPack) (hmacKey : List Nat) : Bool :=
  hmacSha256 hmacKey pack.bodyBytes == pack.trailer

/-- Errors of the restore path. -/
inductive RestoreErr
  | hmacAuthFailed
  | videoOpenFailed
  | noResolution
  | writerOpenFailed
  | roi (e : CryptoErr)
deriving DecidableEq

/-- Embedding of `load_data_pack` (`scripts/restore_video.py`, lines
93-105): verify the HMAC first and raise immediately when it is false;
otherwise return the frame map, fps and frame size from the pack. -/
def load_data_pack (pack : DataPack) (hmacKey : List Nat) :
    Except RestoreErr (List (Nat × List RBlock) × ℚ × (Nat × Nat)) :=
  if DataPackReader.verify pack hmacKey then
    Except.ok (pack.frames, pack.framerate, (pack.width, pack.height))
  else Except.error RestoreErr.hmacAuthFailed

/-- The restore-side clamp (`scripts/restore_video.py`, lines 190-199):
clamp the stored bbox to the video dimensions, compute `roi_width =
max(0, x2 - x1)` and `roi_height = max(0, y2 - y1)`, and skip the block
when either is zero. -/
def restoreClamp (a b c d : Int) (width height : Nat) :
    Option ((Int × Int × Int × Int) × Nat × Nat) :=
  if ((max 0 (min c (width : Int)) - max 0 (min a ((width : Int) - 1))).toNat
        = 0)
      ∨ ((max 0 (min d (height : Int))
          - max 0 (min b ((height : Int) - 1))).toNat = 0)
  then none
  else some ((max 0 (min a ((width : Int) - 1)),
      max 0 (min b ((height : Int) - 1)),
      max 0 (min c (width : Int)), max 0 (min d (height : Int))),
    (max 0 (min c (width : Int)) - max 0 (min a ((width : Int) - 1))).toNat,
    (max 0 (min d (height : Int))
      - max 0 (min b ((height : Int) - 1))).toNat)

/-- The `(roi_height, roi_width, 3)` uint8 array decoded from the
plaintext, as a pixel function (`np.frombuffer(..).reshape(..)`). -/
def bytesToRoiPix (bs : List Nat) (roiW : Nat) (i j : Nat) :
    Nat × Nat × Nat :=
  (bs.getD (3 * (i * roiW + j)) 0, bs.getD (3 * (i * roiW + j) + 1) 0,
    bs.getD (3 * (i * roiW + j) + 2) 0)

/-- The per-frame block loop of restore `main` (lines 184-202): for
each block with a bbox, clamp, skip degenerate regions, decrypt the
ciphertext expecting `roi_height * roi_width * 3` bytes and paste the
plaintext into the frame; a decryption error aborts the run. -/
def restoreBlocks (key : List Nat) (width height : Nat) :
    List RBlock → Frame (Nat × Nat × Nat)
      → Except RestoreErr (Frame (Nat × Nat × Nat))
  | [], fr => Except.ok fr
  | blk :: blks, fr =>
    match blk.bbox with
    | none => restoreBlocks key width height blks fr
    | some (a, b, c, d) =>
      match restoreClamp a b c d width height with
      | none => restoreBlocks key width height blks fr
      | some (bb, roiW, roiH) =>
        match decrypt_roi blk.encrypted key roiW roiH with
        | Except.error e => Except.error (RestoreErr.roi e)
        | Except.ok bytes =>
          restoreBlocks key width height blks
            (writeRect fr bb.1.toNat bb.2.1.toNat bb.2.2.1.toNat
              bb.2.2.2.toNat (bytesToRoiPix bytes roiW))

/-- Externally visible restore events, in order. -/
inductive REvent
  | videoOpened
  | writerCreated
  | frameWritten (i : Nat)
deriving DecidableEq

/-- The `frame_map.get(frame_index, [])` lookup of restore `main`. -/
def lookupFrame (m : List (Nat × List RBlock)) (i : Nat) : List RBlock :=
  ((m.find? (fun e => e.1 == i)).map (fun e => e.2)).getD []

/-- The frame loop of restore `main` (lines 177-215): decode frames in
order, restore each frame's blocks, write it (one `frameWritten` event
per frame); a decryption error stops the loop with the frames written
so far. -/
def restoreFrames (key : List Nat) (fm : List (Nat × List RBlock))
    (width height : Nat) :
    List (Frame (Nat × Nat × Nat)) → Nat
      → List REvent × Except RestoreErr Unit
  | [], _ => ([], Except.ok ())
  | fr :: frs, i =>
    match restoreBlocks key width height (lookupFrame fm i) fr with
    | Except.error e => ([], Except.error e)
    | Except.ok _ =>
      (REvent.frameWritten i
          :: (restoreFrames key fm width height frs (i + 1)).1,
        (restoreFrames key fm width height frs (i + 1)).2)

/-- The anonymized video as the decoder presents it. -/
structure RVideo where
  opened : Bool
  width : Nat
  height : Nat
  fps : ℚ
  frames : List (Frame (Nat × Nat × Nat))

/-- Embedding of restore `main` (`scripts/restore_video.py`, lines
124-218) from the point where the keys are decoded: load and verify
the data pack, open the anonymized video, resolve the resolution
(video dimensions win; pack dimensions only as fallback, failing when
both are zero), create the output writer, then run the frame loop. -/
def restoreMain (pack : DataPack) (key hmacKey : List Nat) (video : RVideo)
    (writerOk : Bool) : List REvent × Except RestoreErr Unit :=
  match load_data_pack pack hmacKey with
  | Except.error e => ([], Except.error e)
  | Except.ok fmFpsSize =>
    if video.opened then
      match
        (if video.width = 0 ∨ video.height = 0 then
          (if fmFpsSize.2.2.1 = 0 ∨ fmFpsSize.2.2.2 = 0 then none
            else some fmFpsSize.2.2)
        else some (video.width, video.height)) with
      | none => ([REvent.videoOpened], Except.error RestoreErr.noResolution)
      | some wh =>
        if writerOk then
          (REvent.videoOpened :: REvent.writerCreated
              :: (restoreFrames key fmFpsSize.1 wh.1 wh.2 video.frames 0).1,
            (restoreFrames key fmFpsSize.1 wh.1 wh.2 video.frames 0).2)
        else ([REvent.videoOpened], Except.error RestoreErr.writerOpenFailed)
    else ([], Except.error RestoreErr.videoOpenFailed)

/-- C4: when the data pack's HMAC verification returns false, restore
fails immediately with the authentication error: `load_data_pack`
raises before the anonymized video is opened and before the output
writer is created, so the event trace is empty — in particular no
writer is created and no restored frame is ever written. -/
theorem restore_hmac_failfast (pack : DataPack) (key hmacKey : List Nat)
    (video : RVideo) (writerOk : Bool)
    (hv : DataPackReader.verify pack hmacKey = false) :
    restoreMain pack key hmacKey video writerOk
        = ([], Except.error RestoreErr.hmacAuthFailed) ∧
    REvent.writerCreated ∉ (restoreMain pack key hmacKey video writerOk).1 ∧
    ∀ i, REvent.frameWritten i
      ∉ (restoreMain pack key hmacKey video writerOk).1 := by
  have hl : load_data_pack pack hmacKey
      = Except.error RestoreErr.hmacAuthFailed := by
    unfold load_data_pack
    rw [hv]
    rfl
  have hm : restoreMain pack key hmacKey video writerOk
      = ([], Except.error RestoreErr.hmacAuthFailed) := by
    unfold restoreMain
    rw [hl]
  refine ⟨hm, ?_, ?_⟩
  · rw [hm]
    simp
  · intro i
    rw [hm]
    simp

/-- A pack whose stored trailer cannot match any 32-byte HMAC. -/
def pack0 : DataPack := ⟨30, 2, 2, [], [], []⟩

/-- A trivially open 2x2 video with no frames. -/
def rvideo0 : RVideo := ⟨true, 2, 2, 30, []⟩

theorem restore_hmac_failfast_witness :
    DataPackReader.verify pack0 (List.replicate 16 0) = false ∧
    restoreMain pack0 (List.replicate 16 0) (List.replicate 16 0) rvideo0 true
      = ([], Except.error RestoreErr.hmacAuthFailed) :=
  ⟨by decide, (restore_hmac_failfast pack0 (List.replicate 16 0)
    (List.replicate 16 0) rvideo0 true (by decide)).1⟩
